import Mathlib

/-!
Verification development for the seismic risk monitor
(`src/seismic_risk_monitor.py`).

The geometric core is embedded shallowly:

* shapely geometries are modelled by their point sets in the plane
  (`Set (ℝ × ℝ)`), together with the bounds tuple that `geom.bounds`
  reports; `box`, `intersection`, `translate` and `unary_union` are the
  point-set semantics of the corresponding shapely operations;
* `handle_antimeridian_buffers` and `perform_risk_analysis` are
  translated line by line from the source;
* the Web-Mercator projection (performed in the source by the external
  `to_crs` calls) and the disc buffering (the external shapely `buffer`)
  are modelled from the spec, as documented on their definitions.
-/

namespace SeismicRisk

open Real

/-- Configuration constant `MIN_MAGNITUDE = 4.0` from the source. -/
noncomputable def MIN_MAGNITUDE : ℝ := 4.0

/-- Configuration constant `RISK_RADIUS_KM = 50` from the source. -/
noncomputable def RISK_RADIUS_KM : ℝ := 50

/-- `MERCATOR_WORLD_MAX_X = 20037508.34` from the source. -/
noncomputable def MERCATOR_WORLD_MAX_X : ℝ := 20037508.34

/-- `MERCATOR_WORLD_MIN_X = -20037508.34` from the source. -/
noncomputable def MERCATOR_WORLD_MIN_X : ℝ := -20037508.34

/-- `MERCATOR_WIDTH = MERCATOR_WORLD_MAX_X - MERCATOR_WORLD_MIN_X` from the source. -/
noncomputable def MERCATOR_WIDTH : ℝ := MERCATOR_WORLD_MAX_X - MERCATOR_WORLD_MIN_X

/-- A point of the projected (Web-Mercator metre) plane. -/
abbrev Pt := ℝ × ℝ

/-- Model of a shapely geometry: its set of points, together with the
bounds tuple `(minx, miny, maxx, maxy)` that `geom.bounds` reports. -/
structure Geom where
  pts : Set Pt
  minx : ℝ
  miny : ℝ
  maxx : ℝ
  maxy : ℝ

/-- The bounds stored in a `Geom` really bound its point set (shapely
maintains this invariant for every non-empty geometry). -/
def Geom.BoundsOK (g : Geom) : Prop :=
  ∀ p ∈ g.pts, g.minx ≤ p.1 ∧ p.1 ≤ g.maxx ∧ g.miny ≤ p.2 ∧ p.2 ≤ g.maxy

/-- `shapely.geometry.box(minx, miny, maxx, maxy)`: the closed
axis-aligned rectangle, as a point set. -/
def box (minx miny maxx maxy : ℝ) : Set Pt :=
  {p | minx ≤ p.1 ∧ p.1 ≤ maxx ∧ miny ≤ p.2 ∧ p.2 ≤ maxy}

/-- `geom.intersection(other)` at point-set level. -/
def intersection (a b : Set Pt) : Set Pt := a ∩ b

/-- `shapely.affinity.translate(geom, xoff)` at point-set level: a rigid
horizontal shift. -/
def translate (s : Set Pt) (xoff : ℝ) : Set Pt :=
  (fun p : Pt => (p.1 + xoff, p.2)) '' s

/-- `shapely.ops.unary_union(list)` at point-set level. -/
def unary_union (l : List (Set Pt)) : Set Pt := l.foldr (· ∪ ·) ∅

/-- The constant `large_y = 1e10` from `handle_antimeridian_buffers`. -/
noncomputable def large_y : ℝ := 1e10

/-- What `handle_antimeridian_buffers` appends for one geometry: either
the input geometry object itself (the `else` branch) or the
`unary_union` of the clipped parts (the overflow branches). -/
inductive CorrGeom where
  | orig (g : Geom)
  | unioned (s : Set Pt)

/-- The point set of a corrected geometry. -/
def CorrGeom.ptSet : CorrGeom → Set Pt
  | .orig g => g.pts
  | .unioned s => s

/-- The body of the loop of `handle_antimeridian_buffers`, translated
from the source: branch on the bounds, clip with the boxes built there,
translate the overflow by `∓MERCATOR_WIDTH` and union, or keep the
geometry unchanged. -/
noncomputable def handleOneGeom (geom : Geom) : CorrGeom :=
  if MERCATOR_WORLD_MAX_X < geom.maxx then
    let inside_box := box MERCATOR_WORLD_MIN_X (-large_y) MERCATOR_WORLD_MAX_X large_y
    let part_main := intersection geom.pts inside_box
    let overflow_box := box MERCATOR_WORLD_MAX_X (-large_y) (geom.maxx + 1) large_y
    let part_overflow := intersection geom.pts overflow_box
    let part_shifted := translate part_overflow (-MERCATOR_WIDTH)
    .unioned (unary_union [part_main, part_shifted])
  else if geom.minx < MERCATOR_WORLD_MIN_X then
    let inside_box := box MERCATOR_WORLD_MIN_X (-large_y) MERCATOR_WORLD_MAX_X large_y
    let part_main := intersection geom.pts inside_box
    let overflow_box := box (geom.minx - 1) (-large_y) MERCATOR_WORLD_MIN_X large_y
    let part_overflow := intersection geom.pts overflow_box
    let part_shifted := translate part_overflow MERCATOR_WIDTH
    .unioned (unary_union [part_main, part_shifted])
  else
    .orig geom

/-- `handle_antimeridian_buffers`, translated from the source: start from
an empty list and append the corrected geometry of each input in turn. -/
noncomputable def handle_antimeridian_buffers (gs : List Geom) : List CorrGeom :=
  gs.foldl (fun acc g => acc ++ [handleOneGeom g]) []

lemma foldl_append_singleton {α β : Type} (f : α → β) :
    ∀ (gs : List α) (acc : List β),
      gs.foldl (fun a g => a ++ [f g]) acc = acc ++ gs.map f := by
  intro gs
  induction gs with
  | nil => intro acc; simp
  | cons g gs ih => intro acc; simp [List.foldl_cons, ih]

/-- The append loop is exactly a map of the per-geometry correction. -/
lemma handle_antimeridian_buffers_eq_map (gs : List Geom) :
    handle_antimeridian_buffers gs = gs.map handleOneGeom := by
  simpa using foldl_append_singleton handleOneGeom gs []

/-- Horizontal clipping as the spec words it: intersection with the
rectangle `[a, b] × (-∞, +∞)`. -/
def clipX (s : Set Pt) (a b : ℝ) : Set Pt := {p ∈ s | a ≤ p.1 ∧ p.1 ≤ b}

lemma unary_union_pair (x y : Set Pt) : unary_union [x, y] = x ∪ y := by
  simp [unary_union]

/-- Because `large_y = 1e10` exceeds the vertical extent of the geometry,
intersecting with the code's tall box is the same as the purely
horizontal clip of the spec. -/
lemma inter_box_eq_clipX (g : Geom) (hb : g.BoundsOK)
    (hy1 : -large_y ≤ g.miny) (hy2 : g.maxy ≤ large_y) (a b : ℝ) :
    intersection g.pts (box a (-large_y) b large_y) = clipX g.pts a b := by
  ext p
  simp only [intersection, box, clipX, Set.mem_inter_iff, Set.mem_setOf_eq,
    Set.mem_sep_iff]
  constructor
  · rintro ⟨hp, h1, h2, _, _⟩
    exact ⟨hp, h1, h2⟩
  · rintro ⟨hp, h1, h2⟩
    obtain ⟨_, _, hy3, hy4⟩ := hb p hp
    exact ⟨hp, h1, h2, le_trans hy1 hy3, le_trans hy4 hy2⟩

/-- C6: if neither horizontal bound of the bounding box is exceeded, the
antimeridian correction is the identity: the loop appends the input
geometry object itself (hence a single-part geometry with the very same
bounding box). -/
theorem no_overflow_identity (g : Geom)
    (h1 : MERCATOR_WORLD_MIN_X ≤ g.minx) (h2 : g.maxx ≤ MERCATOR_WORLD_MAX_X) :
    handleOneGeom g = .orig g := by
  unfold handleOneGeom
  rw [if_neg (not_lt.mpr h2), if_neg (not_lt.mpr h1)]

/-- Witness for C6 at the geometry with bounds `(0, 0, 0, 0)`. -/
theorem no_overflow_identity_witness :
    (MERCATOR_WORLD_MIN_X ≤ (0 : ℝ) ∧ (0 : ℝ) ≤ MERCATOR_WORLD_MAX_X) ∧
      handleOneGeom ⟨∅, 0, 0, 0, 0⟩ = .orig ⟨∅, 0, 0, 0, 0⟩ := by
  have h1 : MERCATOR_WORLD_MIN_X ≤ (0 : ℝ) := by norm_num [MERCATOR_WORLD_MIN_X]
  have h2 : (0 : ℝ) ≤ MERCATOR_WORLD_MAX_X := by norm_num [MERCATOR_WORLD_MAX_X]
  exact ⟨⟨h1, h2⟩, no_overflow_identity ⟨∅, 0, 0, 0, 0⟩ h1 h2⟩

/-- C1: for a geometry overflowing only the east edge, the correction is
the union of the geometry clipped horizontally to
`[-MAX_X, MAX_X]` and the geometry clipped to the overflow strip
`[MAX_X, maxx + 1]` translated west by the world width; symmetrically
(translation by `+MERCATOR_WIDTH`) when only the west edge overflows. -/
theorem antimeridian_overflow_split (g : Geom) (hb : g.BoundsOK)
    (hy1 : -large_y ≤ g.miny) (hy2 : g.maxy ≤ large_y) :
    (MERCATOR_WORLD_MIN_X ≤ g.minx → MERCATOR_WORLD_MAX_X < g.maxx →
      (handleOneGeom g).ptSet =
        clipX g.pts MERCATOR_WORLD_MIN_X MERCATOR_WORLD_MAX_X ∪
          translate (clipX g.pts MERCATOR_WORLD_MAX_X (g.maxx + 1))
            (-MERCATOR_WIDTH)) ∧
    (g.minx < MERCATOR_WORLD_MIN_X → g.maxx ≤ MERCATOR_WORLD_MAX_X →
      (handleOneGeom g).ptSet =
        clipX g.pts MERCATOR_WORLD_MIN_X MERCATOR_WORLD_MAX_X ∪
          translate (clipX g.pts (g.minx - 1) MERCATOR_WORLD_MIN_X)
            MERCATOR_WIDTH) := by
  constructor
  · intro _hmin hmax
    have hbranch : handleOneGeom g = .unioned (unary_union
        [intersection g.pts
            (box MERCATOR_WORLD_MIN_X (-large_y) MERCATOR_WORLD_MAX_X large_y),
          translate (intersection g.pts
            (box MERCATOR_WORLD_MAX_X (-large_y) (g.maxx + 1) large_y))
            (-MERCATOR_WIDTH)]) := by
      unfold handleOneGeom
      rw [if_pos hmax]
    rw [hbranch, CorrGeom.ptSet, unary_union_pair,
      inter_box_eq_clipX g hb hy1 hy2, inter_box_eq_clipX g hb hy1 hy2]
  · intro hmin hmax
    have hbranch : handleOneGeom g = .unioned (unary_union
        [intersection g.pts
            (box MERCATOR_WORLD_MIN_X (-large_y) MERCATOR_WORLD_MAX_X large_y),
          translate (intersection g.pts
            (box (g.minx - 1) (-large_y) MERCATOR_WORLD_MIN_X large_y))
            MERCATOR_WIDTH]) := by
      unfold handleOneGeom
      rw [if_neg (not_lt.mpr hmax), if_pos hmin]
    rw [hbranch, CorrGeom.ptSet, unary_union_pair,
      inter_box_eq_clipX g hb hy1 hy2, inter_box_eq_clipX g hb hy1 hy2]

/-- Witness for C1 at a one-point geometry past the east edge. -/
theorem antimeridian_overflow_split_witness :
    ((⟨{((20037600 : ℝ), (0 : ℝ))}, 20037600, 0, 20037600, 0⟩ : Geom).BoundsOK ∧
      -large_y ≤ (0 : ℝ) ∧ (0 : ℝ) ≤ large_y ∧
      MERCATOR_WORLD_MIN_X ≤ (20037600 : ℝ) ∧
      MERCATOR_WORLD_MAX_X < (20037600 : ℝ)) ∧
    (handleOneGeom ⟨{((20037600 : ℝ), (0 : ℝ))}, 20037600, 0, 20037600, 0⟩).ptSet =
      clipX {((20037600 : ℝ), (0 : ℝ))} MERCATOR_WORLD_MIN_X MERCATOR_WORLD_MAX_X ∪
        translate (clipX {((20037600 : ℝ), (0 : ℝ))} MERCATOR_WORLD_MAX_X
          ((20037600 : ℝ) + 1)) (-MERCATOR_WIDTH) := by
  have hb : (⟨{((20037600 : ℝ), (0 : ℝ))}, 20037600, 0, 20037600, 0⟩ : Geom).BoundsOK := by
    intro p hp
    simp only [Set.mem_singleton_iff] at hp
    subst hp
    norm_num
  have hy1 : -large_y ≤ (0 : ℝ) := by norm_num [large_y]
  have hy2 : (0 : ℝ) ≤ large_y := by norm_num [large_y]
  have h3 : MERCATOR_WORLD_MIN_X ≤ (20037600 : ℝ) := by norm_num [MERCATOR_WORLD_MIN_X]
  have h4 : MERCATOR_WORLD_MAX_X < (20037600 : ℝ) := by norm_num [MERCATOR_WORLD_MAX_X]
  exact ⟨⟨hb, hy1, hy2, h3, h4⟩,
    (antimeridian_overflow_split _ hb hy1 hy2).1 h3 h4⟩

/-- Counterexample to C2: a geometry whose bounds exceed both projection
edges is not rejected; `handle_antimeridian_buffers` has no error path
and its `if / elif` silently applies only the east-overflow correction. -/
theorem both_overflow_unilateral_cex :
    MERCATOR_WORLD_MAX_X < (30000000 : ℝ) ∧
    (-30000000 : ℝ) < MERCATOR_WORLD_MIN_X ∧
    handleOneGeom ⟨Set.univ, -30000000, 0, 30000000, 0⟩ =
      .unioned (unary_union
        [intersection Set.univ
            (box MERCATOR_WORLD_MIN_X (-large_y) MERCATOR_WORLD_MAX_X large_y),
          translate (intersection Set.univ
            (box MERCATOR_WORLD_MAX_X (-large_y) ((30000000 : ℝ) + 1) large_y))
            (-MERCATOR_WIDTH)]) := by
  refine ⟨by norm_num [MERCATOR_WORLD_MAX_X], by norm_num [MERCATOR_WORLD_MIN_X], ?_⟩
  unfold handleOneGeom
  rw [if_pos (by norm_num [MERCATOR_WORLD_MAX_X])]

/-- C2 amended: when both bounds are exceeded, the east-overflow branch
takes priority and the geometry receives only the unilateral east
correction; no error is raised and the west overflow is never translated. -/
theorem both_overflow_east_branch_priority (g : Geom)
    (hmax : MERCATOR_WORLD_MAX_X < g.maxx) (_hmin : g.minx < MERCATOR_WORLD_MIN_X) :
    handleOneGeom g = .unioned (unary_union
      [intersection g.pts
          (box MERCATOR_WORLD_MIN_X (-large_y) MERCATOR_WORLD_MAX_X large_y),
        translate (intersection g.pts
          (box MERCATOR_WORLD_MAX_X (-large_y) (g.maxx + 1) large_y))
          (-MERCATOR_WIDTH)]) := by
  unfold handleOneGeom
  rw [if_pos hmax]

/-- Witness for the amended C2 at a both-edges-overflowing geometry. -/
theorem both_overflow_east_branch_priority_witness :
    (MERCATOR_WORLD_MAX_X < (30000001 : ℝ) ∧
      (-30000001 : ℝ) < MERCATOR_WORLD_MIN_X) ∧
    handleOneGeom ⟨Set.univ, -30000001, 0, 30000001, 0⟩ =
      .unioned (unary_union
        [intersection Set.univ
            (box MERCATOR_WORLD_MIN_X (-large_y) MERCATOR_WORLD_MAX_X large_y),
          translate (intersection Set.univ
            (box MERCATOR_WORLD_MAX_X (-large_y) ((30000001 : ℝ) + 1) large_y))
            (-MERCATOR_WIDTH)]) := by
  have h1 : MERCATOR_WORLD_MAX_X < (30000001 : ℝ) := by norm_num [MERCATOR_WORLD_MAX_X]
  have h2 : (-30000001 : ℝ) < MERCATOR_WORLD_MIN_X := by norm_num [MERCATOR_WORLD_MIN_X]
  exact ⟨⟨h1, h2⟩,
    both_overflow_east_branch_priority ⟨Set.univ, -30000001, 0, 30000001, 0⟩ h1 h2⟩

/-- C10: the correction loop emits exactly one output geometry per input
geometry, in input order: it equals the elementwise map of the
per-geometry correction, so nothing is dropped, merged across inputs, or
reordered. -/
theorem one_output_per_input (gs : List Geom) :
    (handle_antimeridian_buffers gs).length = gs.length ∧
    handle_antimeridian_buffers gs = gs.map handleOneGeom := by
  refine ⟨?_, handle_antimeridian_buffers_eq_map gs⟩
  rw [handle_antimeridian_buffers_eq_map gs]
  exact List.length_map gs handleOneGeom

/-- Modelled from the spec: the spherical Earth radius `R = 6378137` m of
EPSG:3857. The projection itself is performed in the source by the
external `to_crs` calls of geopandas/pyproj and is not repository code. -/
noncomputable def R_EARTH : ℝ := 6378137

/-- Degrees to radians. -/
noncomputable def rad (d : ℝ) : ℝ := d * (Real.pi / 180)

/-- Radians to degrees. -/
noncomputable def deg (r : ℝ) : ℝ := r * (180 / Real.pi)

/-- Modelled from the spec: `toProjected(lon, lat) =
(R·lon_rad, R·ln(tan(π/4 + lat_rad/2)))`, the spherical Web-Mercator
forward transform applied by the external `to_crs(epsg=3857)`. -/
noncomputable def toProjected (lon lat : ℝ) : Pt :=
  (R_EARTH * rad lon, R_EARTH * Real.log (Real.tan (Real.pi / 4 + rad lat / 2)))

/-- Modelled from the spec: the analytic inverse of `toProjected`,
applied by the external `to_crs(epsg=4326)`. -/
noncomputable def toGeographic (p : Pt) : ℝ × ℝ :=
  (deg (p.1 / R_EARTH),
    deg (2 * Real.arctan (Real.exp (p.2 / R_EARTH)) - Real.pi / 2))

lemma R_EARTH_pos : (0 : ℝ) < R_EARTH := by norm_num [R_EARTH]

lemma deg_rad (x : ℝ) : deg (rad x) = x := by
  have hpi : Real.pi ≠ 0 := Real.pi_ne_zero
  field_simp [deg, rad]

/-- The forward/inverse pair is an exact round trip for every latitude
strictly inside `(-90, 90)` degrees. -/
lemma toGeographic_toProjected (lon lat : ℝ) (h : |lat| < 90) :
    toGeographic (toProjected lon lat) = (lon, lat) := by
  obtain ⟨h1, h2⟩ := abs_lt.mp h
  have hpi : (0 : ℝ) < Real.pi := Real.pi_pos
  have hR : R_EARTH ≠ 0 := ne_of_gt R_EARTH_pos
  have hx : R_EARTH * rad lon / R_EARTH = rad lon := by field_simp
  have hθ1 : 0 < Real.pi / 4 + rad lat / 2 := by
    have : -(Real.pi / 2) < rad lat := by
      unfold rad
      nlinarith
    nlinarith
  have hθ2 : Real.pi / 4 + rad lat / 2 < Real.pi / 2 := by
    have : rad lat < Real.pi / 2 := by
      unfold rad
      nlinarith
    nlinarith
  have htan : 0 < Real.tan (Real.pi / 4 + rad lat / 2) :=
    Real.tan_pos_of_pos_of_lt_pi_div_two hθ1 hθ2
  have hy : R_EARTH * Real.log (Real.tan (Real.pi / 4 + rad lat / 2)) / R_EARTH =
      Real.log (Real.tan (Real.pi / 4 + rad lat / 2)) := by field_simp
  unfold toGeographic toProjected
  rw [hx, hy, Real.exp_log htan,
    Real.arctan_tan (by linarith) hθ2, deg_rad]
  have : 2 * (Real.pi / 4 + rad lat / 2) - Real.pi / 2 = rad lat := by ring
  rw [this, deg_rad]

/-- C7: for `|lat| ≤ 85`, projecting and unprojecting returns the input
within `1e-6` degrees (in fact exactly, in the real-number model). -/
theorem mercator_roundtrip_claim (lon lat : ℝ) (h : |lat| ≤ 85) :
    |(toGeographic (toProjected lon lat)).1 - lon| ≤ 1e-6 ∧
    |(toGeographic (toProjected lon lat)).2 - lat| ≤ 1e-6 := by
  have h90 : |lat| < 90 := lt_of_le_of_lt h (by norm_num)
  rw [toGeographic_toProjected lon lat h90]
  norm_num

/-- Witness for C7 at `(lon, lat) = (0, 0)`. -/
theorem mercator_roundtrip_claim_witness :
    |(0 : ℝ)| ≤ 85 ∧
    (|(toGeographic (toProjected 0 0)).1 - 0| ≤ 1e-6 ∧
      |(toGeographic (toProjected 0 0)).2 - 0| ≤ 1e-6) := by
  have h : |(0 : ℝ)| ≤ 85 := by norm_num
  exact ⟨h, mercator_roundtrip_claim 0 0 h⟩

/-- An earthquake record, with the columns of the quakes frame that the
analysis uses: `mag`, `title`, `place` and the point geometry. -/
structure Event where
  mag : ℝ
  title : String
  place : String
  lon : ℝ
  lat : ℝ

/-- A populated-place record of the cities frame: its name and point
geometry (further attribute columns are carried through joins unchanged
and are irrelevant to the geometry). -/
structure City where
  name : String
  lon : ℝ
  lat : ℝ

/-- A row of the `risk_zones` frame: the source event's attributes plus
the corrected risk geometry in geographic (EPSG:4326) coordinates. -/
structure RiskZone where
  event : Event
  geomGeo : Set (ℝ × ℝ)

/-- Modelled from the spec: the external shapely `buffer` on a projected
point, as the closed metric disc for a positive radius; shapely returns
an empty polygon when the buffer distance of a point is not positive. -/
noncomputable def bufferPoint (c : Pt) (r : ℝ) : Set Pt :=
  if 0 < r then {p | (p.1 - c.1) ^ 2 + (p.2 - c.2) ^ 2 ≤ r ^ 2} else ∅

/-- Modelled from the spec: the buffered geometry together with the
bounds shapely reports for a point buffer, `(cx - r, cy - r, cx + r, cy + r)`. -/
noncomputable def bufferGeom (c : Pt) (r : ℝ) : Geom :=
  ⟨bufferPoint c r, c.1 - r, c.2 - r, c.1 + r, c.2 + r⟩

open Classical in
/-- `gpd.sjoin(cities_gdf, risk_zones, how="inner", predicate="intersects")`:
one output row per (city, zone) pair whose geometries intersect; a point
intersects a polygon exactly when it lies in it, boundary included. -/
noncomputable def sjoin (cities : List City) (zones : List RiskZone) :
    List (City × RiskZone) :=
  cities.flatMap fun c =>
    zones.flatMap fun z =>
      if (c.lon, c.lat) ∈ z.geomGeo then [(c, z)] else []

open Classical in
/-- `perform_risk_analysis`, translated from the source: empty-input
check, magnitude filter with its empty check, projection to EPSG:3857,
buffering, the antimeridian fix, reprojection of the geometry column to
EPSG:4326 (the subsequent `buffer(0)` validity repair leaves the point
set unchanged and is modelled as the identity), and the spatial join. -/
noncomputable def perform_risk_analysis (quakes : List Event) (cities : List City)
    (min_mag radius_km : ℝ) : List (City × RiskZone) × List RiskZone :=
  if quakes.isEmpty ∨ cities.isEmpty then ([], [])
  else
    let sig_quakes := quakes.filter fun q => decide (min_mag ≤ q.mag)
    if sig_quakes.isEmpty then ([], [])
    else
      let projected := sig_quakes.map fun q => toProjected q.lon q.lat
      let buffered := projected.map fun c => bufferGeom c (radius_km * 1000)
      let corrected := handle_antimeridian_buffers buffered
      let zone_geoms := corrected.map fun cg => toGeographic '' cg.ptSet
      let risk_zones := (sig_quakes.zip zone_geoms).map fun qz => RiskZone.mk qz.1 qz.2
      (sjoin cities risk_zones, risk_zones)

/-- The geographic risk geometry the pipeline derives for one qualifying
event (projection, buffering, antimeridian correction, reprojection). -/
noncomputable def zoneGeom (radius_km : ℝ) (q : Event) : Set (ℝ × ℝ) :=
  toGeographic ''
    (handleOneGeom (bufferGeom (toProjected q.lon q.lat) (radius_km * 1000))).ptSet

lemma zip_zone_mk (Φ : Event → Set (ℝ × ℝ)) (l : List Event) :
    ((l.zip (l.map Φ)).map fun qz => RiskZone.mk qz.1 qz.2) =
      l.map fun q => RiskZone.mk q (Φ q) := by
  induction l with
  | nil => simp
  | cons a t ih => simp [ih]

/-- On non-degenerate inputs, `perform_risk_analysis` returns the zone
list mapped from the magnitude-filtered quakes and its spatial join. -/
lemma perform_main (quakes : List Event) (cities : List City)
    (min_mag radius_km : ℝ) (hq : quakes ≠ []) (hc : cities ≠ [])
    (hs : quakes.filter (fun q => decide (min_mag ≤ q.mag)) ≠ []) :
    perform_risk_analysis quakes cities min_mag radius_km =
      (sjoin cities ((quakes.filter fun q => decide (min_mag ≤ q.mag)).map
          fun q => RiskZone.mk q (zoneGeom radius_km q)),
        (quakes.filter fun q => decide (min_mag ≤ q.mag)).map
          fun q => RiskZone.mk q (zoneGeom radius_km q)) := by
  unfold perform_risk_analysis
  rw [if_neg, if_neg]
  · simp only [handle_antimeridian_buffers_eq_map, List.map_map]
    rw [zip_zone_mk]
    rfl
  · simpa [List.isEmpty_iff] using hs
  · simp [List.isEmpty_iff, hq, hc]

/-- Empty events or empty places short-circuit to empty outputs. -/
lemma perform_empty_inputs (quakes : List Event) (cities : List City)
    (min_mag radius_km : ℝ) (h : quakes = [] ∨ cities = []) :
    perform_risk_analysis quakes cities min_mag radius_km = ([], []) := by
  unfold perform_risk_analysis
  rw [if_pos]
  rcases h with h | h
  · exact Or.inl (by simp [h])
  · exact Or.inr (by simp [h])

/-- An empty magnitude filter short-circuits to empty outputs. -/
lemma perform_no_sig (quakes : List Event) (cities : List City)
    (min_mag radius_km : ℝ)
    (hs : quakes.filter (fun q => decide (min_mag ≤ q.mag)) = []) :
    perform_risk_analysis quakes cities min_mag radius_km = ([], []) := by
  unfold perform_risk_analysis
  by_cases h : quakes.isEmpty = true ∨ cities.isEmpty = true
  · rw [if_pos h]
  · rw [if_neg h, if_pos (by simp [List.isEmpty_iff, hs])]

/-- Either the analysis short-circuits to empty outputs, or it returns
the mapped zone list and its join. -/
lemma perform_cases (quakes : List Event) (cities : List City)
    (min_mag radius_km : ℝ) :
    perform_risk_analysis quakes cities min_mag radius_km = ([], []) ∨
    perform_risk_analysis quakes cities min_mag radius_km =
      (sjoin cities ((quakes.filter fun q => decide (min_mag ≤ q.mag)).map
          fun q => RiskZone.mk q (zoneGeom radius_km q)),
        (quakes.filter fun q => decide (min_mag ≤ q.mag)).map
          fun q => RiskZone.mk q (zoneGeom radius_km q)) := by
  by_cases hq : quakes = []
  · exact Or.inl (perform_empty_inputs _ _ _ _ (Or.inl hq))
  · by_cases hc : cities = []
    · exact Or.inl (perform_empty_inputs _ _ _ _ (Or.inr hc))
    · by_cases hs : quakes.filter (fun q => decide (min_mag ≤ q.mag)) = []
      · exact Or.inl (perform_no_sig _ _ _ _ hs)
      · exact Or.inr (perform_main _ _ _ _ hq hc hs)

/-- Membership in the spatial join is exactly boundary-inclusive
containment of the city point in the zone geometry. -/
lemma mem_sjoin_iff (cities : List City) (zones : List RiskZone)
    (c : City) (z : RiskZone) :
    (c, z) ∈ sjoin cities zones ↔
      c ∈ cities ∧ z ∈ zones ∧ (c.lon, c.lat) ∈ z.geomGeo := by
  unfold sjoin
  rw [List.mem_flatMap]
  constructor
  · rintro ⟨x, hx, hmem⟩
    rw [List.mem_flatMap] at hmem
    obtain ⟨w, hw, hmem⟩ := hmem
    split at hmem
    · simp only [List.mem_singleton, Prod.mk.injEq] at hmem
      obtain ⟨rfl, rfl⟩ := hmem
      exact ⟨hx, hw, by assumption⟩
    · exact absurd hmem (List.not_mem_nil _)
  · rintro ⟨hc, hz, hmem⟩
    refine ⟨c, hc, ?_⟩
    rw [List.mem_flatMap]
    exact ⟨z, hz, by rw [if_pos hmem]; exact List.mem_singleton.mpr rfl⟩

/-- C3: every produced risk zone comes from an input event with
magnitude at least the threshold, and when every event is below the
threshold the analysis returns empty outputs without error. -/
theorem magnitude_filter_spec (quakes : List Event) (cities : List City)
    (min_mag radius_km : ℝ) :
    (∀ z ∈ (perform_risk_analysis quakes cities min_mag radius_km).2,
        min_mag ≤ z.event.mag ∧ z.event ∈ quakes) ∧
    ((∀ q ∈ quakes, q.mag < min_mag) →
      perform_risk_analysis quakes cities min_mag radius_km = ([], [])) := by
  constructor
  · intro z hz
    rcases perform_cases quakes cities min_mag radius_km with h | h
    · rw [h] at hz
      exact absurd hz (List.not_mem_nil z)
    · rw [h] at hz
      simp only [List.mem_map] at hz
      obtain ⟨q, hq, rfl⟩ := hz
      rw [List.mem_filter] at hq
      exact ⟨of_decide_eq_true hq.2, hq.1⟩
  · intro hall
    apply perform_no_sig
    rw [List.filter_eq_nil_iff]
    intro q hq
    simp only [decide_eq_true_eq, not_le]
    exact hall q hq

/-- Witness for C3: a single magnitude-3 event against threshold 4. -/
theorem magnitude_filter_spec_witness :
    (∀ q ∈ [(⟨3, "t", "p", 0, 0⟩ : Event)], q.mag < 4) ∧
    perform_risk_analysis [⟨3, "t", "p", 0, 0⟩] [⟨"c", 10, 10⟩] 4 50 = ([], []) := by
  have h : ∀ q ∈ [(⟨3, "t", "p", 0, 0⟩ : Event)], q.mag < (4 : ℝ) := by
    intro q hq
    simp only [List.mem_singleton] at hq
    subst hq
    norm_num
  exact ⟨h, (magnitude_filter_spec _ _ 4 50).2 h⟩

/-- C4: an empty events or places collection yields empty outputs and no
exception. -/
theorem empty_inputs_empty_outputs (quakes : List Event) (cities : List City)
    (min_mag radius_km : ℝ) (h : quakes = [] ∨ cities = []) :
    perform_risk_analysis quakes cities min_mag radius_km = ([], []) :=
  perform_empty_inputs quakes cities min_mag radius_km h

/-- Witness for C4 with an empty event list. -/
theorem empty_inputs_empty_outputs_witness :
    (([] : List Event) = [] ∨ [(⟨"c", 0, 0⟩ : City)] = []) ∧
    perform_risk_analysis [] [⟨"c", 0, 0⟩] 4 50 = ([], []) :=
  ⟨Or.inl rfl, empty_inputs_empty_outputs [] [⟨"c", 0, 0⟩] 4 50 (Or.inl rfl)⟩

lemma handleOneGeom_empty (g : Geom) (h : g.pts = ∅) :
    (handleOneGeom g).ptSet = ∅ := by
  unfold handleOneGeom
  split_ifs <;>
    simp [CorrGeom.ptSet, unary_union_pair, intersection, translate, h]

/-- A non-positive radius makes the buffered point set empty, hence the
derived zone geometry empty. -/
lemma zoneGeom_nonpos (radius_km : ℝ) (hr : radius_km ≤ 0) (q : Event) :
    zoneGeom radius_km q = ∅ := by
  have hpts : (bufferGeom (toProjected q.lon q.lat) (radius_km * 1000)).pts = ∅ := by
    show bufferPoint _ _ = ∅
    unfold bufferPoint
    rw [if_neg (not_lt.mpr (by nlinarith : radius_km * 1000 ≤ 0))]
  unfold zoneGeom
  rw [handleOneGeom_empty _ hpts, Set.image_empty]

open Classical in
lemma flatMap_if_empty (c : City) :
    ∀ zones : List RiskZone, (∀ z ∈ zones, z.geomGeo = ∅) →
      (zones.flatMap fun z =>
        if (c.lon, c.lat) ∈ z.geomGeo then [(c, z)] else []) = [] := by
  intro zones
  induction zones with
  | nil => intro _; rfl
  | cons z zs ih =>
    intro h
    have h0 : z.geomGeo = ∅ := h z (List.mem_cons_self z zs)
    by_cases hm : (c.lon, c.lat) ∈ z.geomGeo
    · rw [h0] at hm
      exact absurd hm (Set.not_mem_empty _)
    · rw [List.flatMap_cons, if_neg hm, List.nil_append]
      exact ih fun w hw => h w (List.mem_cons_of_mem z hw)

lemma sjoin_zones_empty (cities : List City) (zones : List RiskZone)
    (h : ∀ z ∈ zones, z.geomGeo = ∅) : sjoin cities zones = [] := by
  unfold sjoin
  induction cities with
  | nil => rfl
  | cons c cs ih =>
    rw [List.flatMap_cons, flatMap_if_empty c zones h, List.nil_append]
    exact ih

/-- Counterexample to C5: a zero radius is not rejected. The analysis
runs to completion, the buffer step is reached and produces an empty
geometry (an empty shapely polygon), and a RiskZone row with empty
geometry is returned: no InvalidRadius error path exists in the code. -/
theorem nonpositive_radius_not_rejected_cex :
    perform_risk_analysis [⟨5, "t", "p", 0, 0⟩] [⟨"c", 10, 10⟩] 4 0 =
      ([], [⟨⟨5, "t", "p", 0, 0⟩, ∅⟩]) := by
  have hd : decide ((4 : ℝ) ≤ (⟨5, "t", "p", 0, 0⟩ : Event).mag) = true :=
    decide_eq_true (by norm_num)
  have hfil : ([(⟨5, "t", "p", 0, 0⟩ : Event)].filter
      fun q => decide ((4 : ℝ) ≤ q.mag)) = [⟨5, "t", "p", 0, 0⟩] := by
    rw [List.filter_cons, List.filter_nil, if_pos hd]
  rw [perform_main _ _ _ _ (by simp) (by simp) (by rw [hfil]; simp)]
  rw [hfil]
  have hzg : zoneGeom 0 (⟨5, "t", "p", 0, 0⟩ : Event) = ∅ :=
    zoneGeom_nonpos 0 le_rfl _
  simp only [List.map_cons, List.map_nil, hzg]
  rw [sjoin_zones_empty]
  intro z hz
  simp only [List.mem_singleton] at hz
  subst hz
  rfl

/-- C5 amended: no radius validation exists; for radius ≤ 0 the buffer
step yields empty geometry, so the analysis completes normally with
zones carrying empty geometry and no impacted place. -/
theorem nonpositive_radius_empty_zones (quakes : List Event) (cities : List City)
    (min_mag radius_km : ℝ) (hr : radius_km ≤ 0) :
    (perform_risk_analysis quakes cities min_mag radius_km).1 = [] ∧
    ∀ z ∈ (perform_risk_analysis quakes cities min_mag radius_km).2,
      z.geomGeo = ∅ := by
  rcases perform_cases quakes cities min_mag radius_km with h | h
  · rw [h]
    exact ⟨rfl, fun z hz => absurd hz (List.not_mem_nil z)⟩
  · have hz : ∀ z ∈ (quakes.filter fun q => decide (min_mag ≤ q.mag)).map
        (fun q => RiskZone.mk q (zoneGeom radius_km q)), z.geomGeo = ∅ := by
      intro z hzz
      rw [List.mem_map] at hzz
      obtain ⟨q, _, rfl⟩ := hzz
      exact zoneGeom_nonpos radius_km hr q
    rw [h]
    exact ⟨sjoin_zones_empty _ _ hz, hz⟩

/-- Witness for the amended C5 at radius -1. -/
theorem nonpositive_radius_empty_zones_witness :
    ((-1 : ℝ) ≤ 0) ∧
    ((perform_risk_analysis [⟨5, "t", "p", 0, 0⟩] [⟨"c", 0, 0⟩] 4 (-1)).1 = [] ∧
      ∀ z ∈ (perform_risk_analysis [⟨5, "t", "p", 0, 0⟩] [⟨"c", 0, 0⟩] 4 (-1)).2,
        z.geomGeo = ∅) := by
  have h : (-1 : ℝ) ≤ 0 := by norm_num
  exact ⟨h, nonpositive_radius_empty_zones _ _ 4 (-1) h⟩

lemma toProjected_zero : toProjected 0 0 = ((0 : ℝ), (0 : ℝ)) := by
  unfold toProjected rad
  norm_num [Real.tan_pi_div_four, Real.log_one]

lemma toGeographic_zero : toGeographic ((0 : ℝ), (0 : ℝ)) = (0, 0) := by
  have h := toGeographic_toProjected 0 0 (by norm_num)
  rw [toProjected_zero] at h
  exact h

lemma toProjected_180 : toProjected 180 0 = (R_EARTH * Real.pi, (0 : ℝ)) := by
  unfold toProjected rad
  rw [show (180 : ℝ) * (Real.pi / 180) = Real.pi by ring]
  norm_num [Real.tan_pi_div_four, Real.log_one]

/-- A buffer's centre stays in the corrected geometry whenever it lies
inside the horizontal projection window and the tall clipping boxes. -/
lemma center_mem_corrected (center : Pt) (r : ℝ) (hr : 0 < r)
    (hx1 : MERCATOR_WORLD_MIN_X ≤ center.1)
    (hx2 : center.1 ≤ MERCATOR_WORLD_MAX_X)
    (hy : |center.2| ≤ large_y) :
    center ∈ (handleOneGeom (bufferGeom center r)).ptSet := by
  have hbuf : center ∈ (bufferGeom center r).pts := by
    show center ∈ bufferPoint center r
    unfold bufferPoint
    rw [if_pos hr]
    show (center.1 - center.1) ^ 2 + (center.2 - center.2) ^ 2 ≤ r ^ 2
    simp only [sub_self]
    nlinarith
  have hy1 : -large_y ≤ center.2 := (abs_le.mp hy).1
  have hy2 : center.2 ≤ large_y := (abs_le.mp hy).2
  have hbox : center ∈
      box MERCATOR_WORLD_MIN_X (-large_y) MERCATOR_WORLD_MAX_X large_y :=
    ⟨hx1, hx2, hy1, hy2⟩
  unfold handleOneGeom
  split_ifs with h1 h2
  · simp only [CorrGeom.ptSet, unary_union_pair]
    exact Or.inl ⟨hbuf, hbox⟩
  · simp only [CorrGeom.ptSet, unary_union_pair]
    exact Or.inl ⟨hbuf, hbox⟩
  · exact hbuf

/-- Longitudes up to 179 degrees project strictly inside the horizontal
window `[-MAX_X, MAX_X]` (whose width slightly undershoots pi times R). -/
lemma projected_x_bound (lon lat : ℝ) (h : |lon| ≤ 179) :
    |(toProjected lon lat).1| ≤ MERCATOR_WORLD_MAX_X := by
  show |R_EARTH * rad lon| ≤ MERCATOR_WORLD_MAX_X
  unfold R_EARTH rad MERCATOR_WORLD_MAX_X
  rw [abs_mul, abs_mul, abs_of_nonneg (by norm_num : (0 : ℝ) ≤ 6378137),
    abs_of_nonneg (le_of_lt (by positivity : (0 : ℝ) < Real.pi / 180))]
  have hπ : Real.pi / 180 ≤ 3.1416 / 180 := by
    have := Real.pi_lt_d4
    linarith
  nlinarith [abs_nonneg lon,
    mul_le_mul h hπ (le_of_lt (by positivity : (0 : ℝ) < Real.pi / 180))
      (by norm_num : (0 : ℝ) ≤ 179)]

set_option maxHeartbeats 1000000 in
/-- Latitudes up to 85 degrees project to a y-coordinate far below the
`large_y = 1e10` clipping extent. -/
lemma projected_y_bound (lon lat : ℝ) (h : |lat| ≤ 85) :
    |(toProjected lon lat).2| ≤ large_y := by
  show |R_EARTH * Real.log (Real.tan (Real.pi / 4 + rad lat / 2))| ≤ large_y
  obtain ⟨hl1, hl2⟩ := abs_le.mp h
  have hπ := Real.pi_pos
  have hθlb : Real.pi / 72 ≤ Real.pi / 4 + rad lat / 2 := by
    unfold rad
    nlinarith [mul_le_mul_of_nonneg_right hl1 (le_of_lt hπ)]
  have hθub : Real.pi / 4 + rad lat / 2 ≤ 35 * Real.pi / 72 := by
    unfold rad
    nlinarith [mul_le_mul_of_nonneg_right hl2 (le_of_lt hπ)]
  have hθpos : 0 < Real.pi / 4 + rad lat / 2 :=
    lt_of_lt_of_le (by positivity) hθlb
  have hθltpi2 : Real.pi / 4 + rad lat / 2 < Real.pi / 2 :=
    lt_of_le_of_lt hθub (by nlinarith)
  have ha1 : (0.04363 : ℝ) < Real.pi / 72 := by nlinarith [Real.pi_gt_d6]
  have ha2 : Real.pi / 72 < (0.04364 : ℝ) := by nlinarith [Real.pi_lt_d6]
  have hs : (0.0436 : ℝ) ≤ Real.sin (Real.pi / 72) := by
    have h2 : (0 : ℝ) < Real.pi / 72 := by positivity
    have h1 : Real.pi / 72 ≤ 1 := by nlinarith
    have hcube := Real.sin_gt_sub_cube h2 h1
    have hcub : (Real.pi / 72) ^ 3 ≤ (0.04364 : ℝ) ^ 3 :=
      pow_le_pow_left (le_of_lt h2) (le_of_lt ha2) 3
    nlinarith [hcub]
  have heq : Real.cos (35 * Real.pi / 72) = Real.sin (Real.pi / 72) := by
    rw [show (35 : ℝ) * Real.pi / 72 = Real.pi / 2 - Real.pi / 72 by ring]
    exact Real.cos_pi_div_two_sub _
  have hcos : Real.sin (Real.pi / 72) ≤ Real.cos (Real.pi / 4 + rad lat / 2) := by
    have h35 : 35 * Real.pi / 72 ≤ Real.pi := by nlinarith
    have hmono :=
      Real.cos_le_cos_of_nonneg_of_le_pi (le_of_lt hθpos) h35 hθub
    linarith [heq ▸ hmono]
  have hsin : Real.sin (Real.pi / 72) ≤ Real.sin (Real.pi / 4 + rad lat / 2) := by
    have hrot : Real.sin (Real.pi / 4 + rad lat / 2) =
        Real.cos (Real.pi / 2 - (Real.pi / 4 + rad lat / 2)) :=
      (Real.cos_pi_div_two_sub _).symm
    have hb1 : 0 ≤ Real.pi / 2 - (Real.pi / 4 + rad lat / 2) := by linarith
    have hb2 : Real.pi / 2 - (Real.pi / 4 + rad lat / 2) ≤ 35 * Real.pi / 72 := by
      nlinarith [hθlb]
    have h35 : 35 * Real.pi / 72 ≤ Real.pi := by nlinarith
    have hmono := Real.cos_le_cos_of_nonneg_of_le_pi hb1 h35 hb2
    rw [hrot]
    linarith [heq ▸ hmono]
  have hcospos : (0 : ℝ) < Real.cos (Real.pi / 4 + rad lat / 2) := by linarith
  have htan : Real.tan (Real.pi / 4 + rad lat / 2) =
      Real.sin (Real.pi / 4 + rad lat / 2) / Real.cos (Real.pi / 4 + rad lat / 2) :=
    Real.tan_eq_sin_div_cos _
  have htpos : 0 < Real.tan (Real.pi / 4 + rad lat / 2) :=
    Real.tan_pos_of_pos_of_lt_pi_div_two hθpos hθltpi2
  have htub : Real.tan (Real.pi / 4 + rad lat / 2) ≤ 23 := by
    rw [htan, div_le_iff hcospos]
    nlinarith [Real.sin_le_one (Real.pi / 4 + rad lat / 2)]
  have htlb : (0.0436 : ℝ) ≤ Real.tan (Real.pi / 4 + rad lat / 2) := by
    rw [htan, le_div_iff hcospos]
    nlinarith [Real.cos_le_one (Real.pi / 4 + rad lat / 2)]
  have hlogub : Real.log (Real.tan (Real.pi / 4 + rad lat / 2)) ≤ 22 := by
    have := Real.log_le_sub_one_of_pos htpos
    linarith
  have hloglb : (-23 : ℝ) ≤ Real.log (Real.tan (Real.pi / 4 + rad lat / 2)) := by
    have hpos : (0 : ℝ) < (Real.tan (Real.pi / 4 + rad lat / 2))⁻¹ := by positivity
    have h24 : (Real.tan (Real.pi / 4 + rad lat / 2))⁻¹ ≤ 24 := by
      have h1 : (Real.tan (Real.pi / 4 + rad lat / 2))⁻¹ *
          Real.tan (Real.pi / 4 + rad lat / 2) = 1 :=
        inv_mul_cancel₀ (ne_of_gt htpos)
      nlinarith [hpos, htlb]
    have := Real.log_le_sub_one_of_pos hpos
    rw [Real.log_inv] at this
    linarith
  have habs : |Real.log (Real.tan (Real.pi / 4 + rad lat / 2))| ≤ 23 :=
    abs_le.mpr ⟨by linarith, by linarith⟩
  rw [abs_mul, abs_of_pos R_EARTH_pos]
  unfold R_EARTH large_y
  nlinarith [abs_nonneg (Real.log (Real.tan (Real.pi / 4 + rad lat / 2)))]

/-- C8 amended: membership in the spatial join is exactly
boundary-inclusive containment of a place point in a zone geometry, one
record per contained pair; and a place at the epicenter of a qualifying
event (magnitude at least the threshold, radius positive) always
appears in the impacted output provided the epicenter's latitude is
strictly inside the projection's domain (|lat| < 90) and its projected
point lies inside the horizontal window `[-MAX_X, MAX_X]` and the
`±1e10` vertical clipping extent. Because the code's MAX_X constant
20037508.34 is slightly smaller than pi times R, the horizontal
condition excludes exactly a sliver of about 2.5e-8 degrees at the
antimeridian itself (see the counterexample); every other epicenter,
e.g. lon 179.9 or lat 89, satisfies these hypotheses
(`projected_x_bound` and `projected_y_bound` discharge them for
|lon| ≤ 179 and |lat| ≤ 85). -/
theorem epicenter_containment :
    (∀ (cities : List City) (zones : List RiskZone) (c : City) (z : RiskZone),
        (c, z) ∈ sjoin cities zones ↔
          c ∈ cities ∧ z ∈ zones ∧ (c.lon, c.lat) ∈ z.geomGeo) ∧
    (∀ (quakes : List Event) (cities : List City) (min_mag radius_km : ℝ)
        (q : Event) (c : City),
        q ∈ quakes → c ∈ cities → c.lon = q.lon → c.lat = q.lat →
        min_mag ≤ q.mag → 0 < radius_km → |q.lat| < 90 →
        |(toProjected q.lon q.lat).1| ≤ MERCATOR_WORLD_MAX_X →
        |(toProjected q.lon q.lat).2| ≤ large_y →
        ∃ z, (c, z) ∈ (perform_risk_analysis quakes cities min_mag radius_km).1) := by
  refine ⟨mem_sjoin_iff, ?_⟩
  intro quakes cities min_mag radius_km q c hq hc hlon hlat hm hr hdom hxabs hyabs
  have hqsig : q ∈ quakes.filter (fun x => decide (min_mag ≤ x.mag)) :=
    List.mem_filter.mpr ⟨hq, decide_eq_true hm⟩
  have hmain := perform_main quakes cities min_mag radius_km
    (List.ne_nil_of_mem hq) (List.ne_nil_of_mem hc) (List.ne_nil_of_mem hqsig)
  have hminmax : MERCATOR_WORLD_MIN_X = -MERCATOR_WORLD_MAX_X := by
    norm_num [MERCATOR_WORLD_MIN_X, MERCATOR_WORLD_MAX_X]
  have hcenter : toProjected q.lon q.lat ∈
      (handleOneGeom (bufferGeom (toProjected q.lon q.lat)
        (radius_km * 1000))).ptSet := by
    apply center_mem_corrected
    · nlinarith
    · rw [hminmax]
      linarith [(abs_le.mp hxabs).1]
    · exact (abs_le.mp hxabs).2
    · exact hyabs
  have hg : toGeographic (toProjected q.lon q.lat) = (q.lon, q.lat) :=
    toGeographic_toProjected q.lon q.lat hdom
  have hcontain : (c.lon, c.lat) ∈ zoneGeom radius_km q := by
    rw [hlon, hlat]
    unfold zoneGeom
    exact hg ▸ Set.mem_image_of_mem toGeographic hcenter
  refine ⟨RiskZone.mk q (zoneGeom radius_km q), ?_⟩
  rw [hmain]
  exact (mem_sjoin_iff _ _ _ _).mpr
    ⟨hc, List.mem_map_of_mem _ hqsig, hcontain⟩

/-- Witness for the amended C8: a place colocated with a magnitude-5
event at the origin appears in the impacted output. -/
theorem epicenter_containment_witness :
    ((⟨5, "t", "p", 0, 0⟩ : Event) ∈ [(⟨5, "t", "p", 0, 0⟩ : Event)] ∧
      (⟨"c", 0, 0⟩ : City) ∈ [(⟨"c", 0, 0⟩ : City)] ∧
      (⟨"c", 0, 0⟩ : City).lon = (⟨5, "t", "p", 0, 0⟩ : Event).lon ∧
      (⟨"c", 0, 0⟩ : City).lat = (⟨5, "t", "p", 0, 0⟩ : Event).lat ∧
      (4 : ℝ) ≤ (⟨5, "t", "p", 0, 0⟩ : Event).mag ∧ (0 : ℝ) < 50 ∧
      |(0 : ℝ)| < 90 ∧
      |(toProjected 0 0).1| ≤ MERCATOR_WORLD_MAX_X ∧
      |(toProjected 0 0).2| ≤ large_y) ∧
    ∃ z, ((⟨"c", 0, 0⟩ : City), z) ∈
      (perform_risk_analysis [⟨5, "t", "p", 0, 0⟩] [⟨"c", 0, 0⟩] 4 50).1 := by
  have h1 : (⟨5, "t", "p", 0, 0⟩ : Event) ∈ [(⟨5, "t", "p", 0, 0⟩ : Event)] :=
    List.mem_singleton.mpr rfl
  have h2 : (⟨"c", 0, 0⟩ : City) ∈ [(⟨"c", 0, 0⟩ : City)] :=
    List.mem_singleton.mpr rfl
  have hx0 : |(toProjected 0 0).1| ≤ MERCATOR_WORLD_MAX_X := by
    rw [toProjected_zero]
    norm_num [MERCATOR_WORLD_MAX_X]
  have hy0 : |(toProjected 0 0).2| ≤ large_y := by
    rw [toProjected_zero]
    norm_num [large_y]
  refine ⟨⟨h1, h2, rfl, rfl, by norm_num, by norm_num, by norm_num, hx0, hy0⟩, ?_⟩
  exact epicenter_containment.2 _ _ 4 50 _ _ h1 h2 rfl rfl
    (by norm_num) (by norm_num) (by norm_num) hx0 hy0

/-- Counterexample to C8: a place exactly at the epicenter of a
qualifying magnitude-5 event at longitude 180 does NOT appear in the
impacted output. The projected x of longitude 180 is pi times R, which
exceeds the code's MAX_X constant 20037508.34, so the east-overflow
branch fires and the zone geometry contains no point that reprojects to
longitude 180. -/
theorem epicenter_at_antimeridian_missed_cex :
    (perform_risk_analysis [⟨5, "t", "p", 180, 0⟩] [⟨"c", 180, 0⟩] 4 50).1 = [] := by
  have hRpi : MERCATOR_WORLD_MAX_X < R_EARTH * Real.pi := by
    unfold MERCATOR_WORLD_MAX_X R_EARTH
    nlinarith [Real.pi_gt_d20]
  have hd : decide ((4 : ℝ) ≤ (⟨5, "t", "p", 180, 0⟩ : Event).mag) = true :=
    decide_eq_true (by norm_num)
  have hfil : [(⟨5, "t", "p", 180, 0⟩ : Event)].filter
      (fun q => decide ((4 : ℝ) ≤ q.mag)) = [⟨5, "t", "p", 180, 0⟩] := by
    rw [List.filter_cons, List.filter_nil, if_pos hd]
  rw [perform_main _ _ _ _ (by simp) (by simp) (by rw [hfil]; simp), hfil]
  show sjoin [⟨"c", 180, 0⟩]
    ([(⟨5, "t", "p", 180, 0⟩ : Event)].map
      fun q => RiskZone.mk q (zoneGeom 50 q)) = []
  rw [List.map_cons, List.map_nil]
  have hnot : ((180 : ℝ), (0 : ℝ)) ∉ zoneGeom 50 (⟨5, "t", "p", 180, 0⟩ : Event) := by
    unfold zoneGeom
    rintro ⟨p, hp, htg⟩
    have hπ := Real.pi_pos
    have hx : p.1 = R_EARTH * Real.pi := by
      have h1 : p.1 / R_EARTH * (180 / Real.pi) = 180 := congrArg Prod.fst htg
      have hR : R_EARTH ≠ 0 := ne_of_gt R_EARTH_pos
      have hπne : Real.pi ≠ 0 := Real.pi_ne_zero
      field_simp at h1
      linarith
    have hbranch : handleOneGeom (bufferGeom
        (toProjected (⟨5, "t", "p", 180, 0⟩ : Event).lon
          (⟨5, "t", "p", 180, 0⟩ : Event).lat) ((50 : ℝ) * 1000)) =
        .unioned (unary_union
          [intersection (bufferGeom (toProjected 180 0) (50 * 1000)).pts
              (box MERCATOR_WORLD_MIN_X (-large_y) MERCATOR_WORLD_MAX_X large_y),
            translate (intersection (bufferGeom (toProjected 180 0) (50 * 1000)).pts
              (box MERCATOR_WORLD_MAX_X (-large_y)
                ((bufferGeom (toProjected 180 0) (50 * 1000)).maxx + 1) large_y))
              (-MERCATOR_WIDTH)]) := by
      unfold handleOneGeom
      rw [if_pos]
      show MERCATOR_WORLD_MAX_X < (toProjected 180 0).1 + 50 * 1000
      rw [toProjected_180]
      show MERCATOR_WORLD_MAX_X < R_EARTH * Real.pi + 50 * 1000
      linarith
    rw [hbranch] at hp
    simp only [CorrGeom.ptSet, unary_union_pair] at hp
    rcases hp with hp | hp
    · have hle : p.1 ≤ MERCATOR_WORLD_MAX_X := hp.2.2.1
      rw [hx] at hle
      linarith
    · obtain ⟨a, ha, heq⟩ := hp
      have hpa : p.1 = a.1 + -MERCATOR_WIDTH := (congrArg Prod.fst heq).symm
      have hamax : a.1 ≤ (bufferGeom (toProjected 180 0) ((50 : ℝ) * 1000)).maxx + 1 :=
        ha.2.2.1
      have hmaxx : (bufferGeom (toProjected 180 0) ((50 : ℝ) * 1000)).maxx =
          R_EARTH * Real.pi + 50 * 1000 := by
        show (toProjected 180 0).1 + (50 : ℝ) * 1000 = _
        rw [toProjected_180]
      rw [hmaxx] at hamax
      have hW : MERCATOR_WIDTH = 40075016.68 := by
        norm_num [MERCATOR_WIDTH, MERCATOR_WORLD_MAX_X, MERCATOR_WORLD_MIN_X]
      rw [hx, hW] at hpa
      linarith
  unfold sjoin
  rw [List.flatMap_cons, List.flatMap_nil, List.append_nil,
    List.flatMap_cons, List.flatMap_nil, List.append_nil, if_neg hnot]

open Classical in
/-- The number of rows of the cities frame equal to a given record. -/
noncomputable def countCity (c : City) (cities : List City) : ℕ :=
  cities.countP fun x => decide (x = c)

open Classical in
/-- The number of join rows whose city component is a given record. -/
noncomputable def countRecordsFor (c : City) (recs : List (City × RiskZone)) : ℕ :=
  recs.countP fun r => decide (r.1 = c)

open Classical in
/-- The zones whose geometry contains a given geographic point. -/
noncomputable def zonesContaining (pt : ℝ × ℝ) (zones : List RiskZone) :
    List RiskZone :=
  zones.filter fun z => decide (pt ∈ z.geomGeo)

open Classical in
lemma countP_block (x c : City) (zones : List RiskZone) :
    (zones.flatMap fun z =>
      if (x.lon, x.lat) ∈ z.geomGeo then [(x, z)] else []).countP
        (fun r => decide (r.1 = c)) =
      if x = c then (zonesContaining (x.lon, x.lat) zones).length else 0 := by
  induction zones with
  | nil => simp [zonesContaining]
  | cons z zs ih =>
    rw [List.flatMap_cons, List.countP_append, ih]
    by_cases hm : (x.lon, x.lat) ∈ z.geomGeo
    · rw [if_pos hm]
      have hz : zonesContaining (x.lon, x.lat) (z :: zs) =
          z :: zonesContaining (x.lon, x.lat) zs := by
        unfold zonesContaining
        rw [List.filter_cons, if_pos (decide_eq_true hm)]
      by_cases hxc : x = c
      · rw [if_pos hxc, if_pos hxc, hz]
        simp only [List.countP_cons, List.countP_nil, List.length_cons, hxc]
        simp
        omega
      · rw [if_neg hxc, if_neg hxc]
        simp [List.countP_cons, hxc]
    · rw [if_neg hm]
      have hz : zonesContaining (x.lon, x.lat) (z :: zs) =
          zonesContaining (x.lon, x.lat) zs := by
        unfold zonesContaining
        rw [List.filter_cons, if_neg (by simp [hm])]
      rw [hz]
      simp

open Classical in
lemma countRecordsFor_sjoin (cities : List City) (zones : List RiskZone)
    (c : City) :
    countRecordsFor c (sjoin cities zones) =
      countCity c cities * (zonesContaining (c.lon, c.lat) zones).length := by
  unfold countRecordsFor sjoin countCity
  induction cities with
  | nil => simp
  | cons x cs ih =>
    rw [List.flatMap_cons, List.countP_append, ih, List.countP_cons,
      countP_block x c zones]
    by_cases hxc : x = c
    · subst hxc
      simp only [if_pos rfl]
      simp
      ring
    · simp only [if_neg hxc, decide_eq_false hxc]
      simp

/-- C9: the number of join records for a city equals the number of
occurrences of that city times the number of risk zones containing its
point; in particular, a unique place lying under exactly two zones gets
exactly two records, one per zone, with no deduplication or tie-break. -/
theorem join_multiplicity (quakes : List Event) (cities : List City)
    (min_mag radius_km : ℝ) (c : City) :
    countRecordsFor c (perform_risk_analysis quakes cities min_mag radius_km).1 =
      countCity c cities *
        (zonesContaining (c.lon, c.lat)
          (perform_risk_analysis quakes cities min_mag radius_km).2).length ∧
    (countCity c cities = 1 →
      (zonesContaining (c.lon, c.lat)
        (perform_risk_analysis quakes cities min_mag radius_km).2).length = 2 →
      countRecordsFor c
        (perform_risk_analysis quakes cities min_mag radius_km).1 = 2) := by
  have hmain : countRecordsFor c
      (perform_risk_analysis quakes cities min_mag radius_km).1 =
      countCity c cities *
        (zonesContaining (c.lon, c.lat)
          (perform_risk_analysis quakes cities min_mag radius_km).2).length := by
    rcases perform_cases quakes cities min_mag radius_km with h | h
    · rw [h]
      simp [countRecordsFor, zonesContaining]
    · rw [h]
      exact countRecordsFor_sjoin cities _ c
  refine ⟨hmain, fun h1 h2 => ?_⟩
  rw [hmain, h1, h2]

/-- Per-event zone geometry contains the origin when the event sits at
the origin and the radius is positive. -/
lemma origin_mem_zoneGeom (radius_km : ℝ) (hr : 0 < radius_km) (q : Event)
    (hlon : q.lon = 0) (hlat : q.lat = 0) :
    ((0 : ℝ), (0 : ℝ)) ∈ zoneGeom radius_km q := by
  unfold zoneGeom
  have hc : toProjected q.lon q.lat = ((0 : ℝ), (0 : ℝ)) := by
    rw [hlon, hlat, toProjected_zero]
  have hmem : toProjected q.lon q.lat ∈
      (handleOneGeom (bufferGeom (toProjected q.lon q.lat)
        (radius_km * 1000))).ptSet := by
    apply center_mem_corrected
    · nlinarith
    · rw [hc]
      norm_num [MERCATOR_WORLD_MIN_X]
    · rw [hc]
      norm_num [MERCATOR_WORLD_MAX_X]
    · rw [hc]
      norm_num [large_y]
  have hg : toGeographic (toProjected q.lon q.lat) = ((0 : ℝ), (0 : ℝ)) := by
    rw [hc, toGeographic_zero]
  exact hg ▸ Set.mem_image_of_mem toGeographic hmem

open Classical in
/-- Witness for C9: one city at the origin under the zones of two
distinct qualifying events at the origin receives exactly two records. -/
theorem join_multiplicity_witness :
    (countCity ⟨"c", 0, 0⟩ [⟨"c", 0, 0⟩] = 1 ∧
      (zonesContaining ((0 : ℝ), (0 : ℝ))
        (perform_risk_analysis [⟨5, "a", "pa", 0, 0⟩, ⟨6, "b", "pb", 0, 0⟩]
          [⟨"c", 0, 0⟩] 4 50).2).length = 2) ∧
    countRecordsFor ⟨"c", 0, 0⟩
      (perform_risk_analysis [⟨5, "a", "pa", 0, 0⟩, ⟨6, "b", "pb", 0, 0⟩]
        [⟨"c", 0, 0⟩] 4 50).1 = 2 := by
  have h1 : countCity (⟨"c", 0, 0⟩ : City) [⟨"c", 0, 0⟩] = 1 := by
    unfold countCity
    simp [List.countP_cons]
  have hd1 : decide ((4 : ℝ) ≤ (⟨5, "a", "pa", 0, 0⟩ : Event).mag) = true :=
    decide_eq_true (by norm_num)
  have hd2 : decide ((4 : ℝ) ≤ (⟨6, "b", "pb", 0, 0⟩ : Event).mag) = true :=
    decide_eq_true (by norm_num)
  have hfil : [(⟨5, "a", "pa", 0, 0⟩ : Event), ⟨6, "b", "pb", 0, 0⟩].filter
      (fun q => decide ((4 : ℝ) ≤ q.mag)) =
      [⟨5, "a", "pa", 0, 0⟩, ⟨6, "b", "pb", 0, 0⟩] := by
    rw [List.filter_cons, if_pos hd1, List.filter_cons, if_pos hd2,
      List.filter_nil]
  have hmain := perform_main [⟨5, "a", "pa", 0, 0⟩, ⟨6, "b", "pb", 0, 0⟩]
    [⟨"c", 0, 0⟩] 4 50 (by simp) (by simp) (by rw [hfil]; simp)
  rw [hfil, List.map_cons, List.map_cons, List.map_nil] at hmain
  have hm1 : ((0 : ℝ), (0 : ℝ)) ∈ zoneGeom 50 (⟨5, "a", "pa", 0, 0⟩ : Event) :=
    origin_mem_zoneGeom 50 (by norm_num) _ rfl rfl
  have hm2 : ((0 : ℝ), (0 : ℝ)) ∈ zoneGeom 50 (⟨6, "b", "pb", 0, 0⟩ : Event) :=
    origin_mem_zoneGeom 50 (by norm_num) _ rfl rfl
  have h2 : (zonesContaining ((0 : ℝ), (0 : ℝ))
      (perform_risk_analysis [⟨5, "a", "pa", 0, 0⟩, ⟨6, "b", "pb", 0, 0⟩]
        [⟨"c", 0, 0⟩] 4 50).2).length = 2 := by
    rw [hmain]
    show (zonesContaining ((0 : ℝ), (0 : ℝ))
      [RiskZone.mk ⟨5, "a", "pa", 0, 0⟩ (zoneGeom 50 ⟨5, "a", "pa", 0, 0⟩),
        RiskZone.mk ⟨6, "b", "pb", 0, 0⟩ (zoneGeom 50 ⟨6, "b", "pb", 0, 0⟩)]).length = 2
    unfold zonesContaining
    rw [List.filter_cons, if_pos (decide_eq_true hm1), List.filter_cons,
      if_pos (decide_eq_true hm2), List.filter_nil]
    rfl
  exact ⟨⟨h1, h2⟩,
    (join_multiplicity [⟨5, "a", "pa", 0, 0⟩, ⟨6, "b", "pb", 0, 0⟩]
      [⟨"c", 0, 0⟩] 4 50 ⟨"c", 0, 0⟩).2 h1 h2⟩

end SeismicRisk
